import Mathlib

/-!
Verification of the ordered-item-store and merge logic of the pdf-merge
application (src/src/App.tsx) against its specification.

The component state and its operations are shallowly embedded:

* a `File` is modelled by `FileData`, carrying its name, declared MIME
  type, byte size, and the outcome of reading-and-parsing its bytes as a
  PDF document (`PDFDocument.load` with `ignoreEncryption: true` either
  yields a document, modelled as the ordered list of its page tokens, or
  throws, modelled as an error message);
* `crypto.randomUUID()` is modelled by a fresh-id counter carried in the
  state: each generated id is a natural number never handed out before,
  which is exactly the freshness the code relies the UUID generator for;
* the react state (`items`, `error`) is a record, and each handler is a
  function from state to state; `JavaScript`'s `Array.prototype.findIndex`
  returns `Option Nat` instead of using `-1` as a sentinel.
-/

instance [DecidableEq ε] [DecidableEq α] : DecidableEq (Except ε α) := fun x y =>
  match x, y with
  | Except.error a, Except.error b =>
    if h : a = b then Decidable.isTrue (by rw [h])
    else Decidable.isFalse (fun hh => by cases hh; exact h rfl)
  | Except.error _, Except.ok _ => Decidable.isFalse (fun hh => by cases hh)
  | Except.ok _, Except.error _ => Decidable.isFalse (fun hh => by cases hh)
  | Except.ok a, Except.ok b =>
    if h : a = b then Decidable.isTrue (by rw [h])
    else Decidable.isFalse (fun hh => by cases hh; exact h rfl)

/-- A user-selected file: name, declared MIME type, size in bytes, and
the result of parsing its raw bytes as a PDF document (its pages, as
abstract page tokens, or the message of the parse failure). -/
structure FileData where
  name : String
  type : String
  size : Nat
  content : Except String (List Nat)
deriving DecidableEq, Repr

/-- `type PdfItem = { id: string; file: File }` from App.tsx, with ids
drawn from the fresh-id counter. -/
structure PdfItem where
  id : Nat
  file : FileData
deriving DecidableEq, Repr

/-- The App component state: the ordered item list, the error banner
(`null` is `none`), and the fresh-id counter modelling `crypto.randomUUID`. -/
structure AppState where
  items : List PdfItem
  error : Option String
  nextId : Nat
deriving DecidableEq, Repr

/-- `useState<PdfItem[]>([])` and `useState<string | null>(null)`. -/
def initialState : AppState := { items := [], error := none, nextId := 0 }

/-- `Math.round` on a nonnegative rational: the floor of `x + 1/2`
(JavaScript rounds half up). -/
def jsRound (x : ℚ) : ℤ := ⌊x + 1 / 2⌋

/-- `bytesToMb` from App.tsx: `Math.round((bytes / (1024 * 1024)) * 10) / 10`. -/
def bytesToMb (bytes : ℚ) : ℚ := (jsRound (bytes / (1024 * 1024) * 10) : ℚ) / 10

/-- `totalSizeMb` from App.tsx: the same rounding applied to
`items.reduce((sum, it) => sum + it.file.size, 0)`, recomputed from the
item list (it is a `useMemo` over `[items]`, never stored). -/
def totalSizeMb (items : List PdfItem) : ℚ :=
  (jsRound ((items.foldl (fun sum it => sum + it.file.size) 0 : Nat) / ((1024 * 1024 : ℚ)) * 10) : ℚ) / 10

/-- ASCII lowercasing of one character, as `toLowerCase` acts on the
ASCII range of a filename. -/
def lowerChar (c : Char) : Char :=
  if 65 ≤ c.toNat ∧ c.toNat ≤ 90 then Char.ofNat (c.toNat + 32) else c

/-- `name.toLowerCase()`, modelled on the name's character list. -/
def jsToLower (s : String) : List Char := s.data.map lowerChar

/-- `str.endsWith(suffix)`, modelled on character lists. -/
def jsEndsWith (s : List Char) (suffix : String) : Bool :=
  List.isSuffixOf suffix.data s

/-- The filter predicate of `addFiles`:
`f.type === "application/pdf" || f.name.toLowerCase().endsWith(".pdf")`. -/
def isPdf (f : FileData) : Bool :=
  f.type == "application/pdf" || jsEndsWith (jsToLower f.name) ".pdf"

/-- `pdfs.map((file) => ({ id: crypto.randomUUID(), file }))`: each file
gets the next fresh id from the counter. -/
def mkItems : Nat → List FileData → List PdfItem
  | _, [] => []
  | n, f :: fs => { id := n, file := f } :: mkItems (n + 1) fs

/-- The error message set when no file passes the PDF filter. -/
def noPdfMsg : String := "No PDFs detected. Please add PDF files."

/-- `addFiles(fileList)` from App.tsx: clear the error; return on a null
or empty selection; filter to PDFs; error (list untouched) if nothing
matched; otherwise append the matching files, each under a fresh id. -/
def addFiles (s : AppState) (fileList : Option (List FileData)) : AppState :=
  let s1 : AppState := { s with error := none }
  match fileList with
  | none => s1
  | some fs =>
    if fs.length = 0 then s1
    else
      let pdfs := fs.filter isPdf
      if pdfs.length = 0 then { s1 with error := some noPdfMsg }
      else { s1 with
              items := s1.items ++ mkItems s1.nextId pdfs,
              nextId := s1.nextId + pdfs.length }

/-- `removeItem(id)`: `prev.filter((x) => x.id !== id)`. -/
def removeItem (s : AppState) (id : Nat) : AppState :=
  { s with items := s.items.filter (fun x => x.id != id) }

/-- `clearAll()`. -/
def clearAll (s : AppState) : AppState :=
  { s with items := [], error := none }

/-- `Array.prototype.findIndex`, with `none` in place of `-1`. -/
def findIndex (p : α → Bool) : List α → Option Nat
  | [] => none
  | x :: xs => if p x then some 0 else (findIndex p xs).map (· + 1)

/-- `arrayMove(array, from, to)` from dnd-kit/sortable: copy the array,
remove the element at `from` and re-insert it at `to` (two `splice`
calls). The out-of-range branch (JavaScript would insert `undefined`)
returns the list unchanged; `onDragEnd` only calls it with indices
returned by `findIndex`, so that branch is never reached there. -/
def arrayMove (l : List α) (fromIdx toIdx : Nat) : List α :=
  match l[fromIdx]? with
  | none => l
  | some x => (l.eraseIdx fromIdx).insertIdx toIdx x

/-- The list update of `onDragEnd`: return unchanged when the dragged and
hovered ids coincide or either is not found, else `arrayMove` between the
two found indices. -/
def moveItems (l : List PdfItem) (activeId overId : Nat) : List PdfItem :=
  if activeId = overId then l
  else
    match findIndex (fun x => x.id == activeId) l,
          findIndex (fun x => x.id == overId) l with
    | some oldIndex, some newIndex => arrayMove l oldIndex newIndex
    | _, _ => l

/-- `onDragEnd(e)` from App.tsx: a drop with no hovered target
(`over` null) does nothing, else the list update above. -/
def onDragEnd (s : AppState) (activeId : Nat) (over : Option Nat) : AppState :=
  match over with
  | none => s
  | some overId => { s with items := moveItems s.items activeId overId }

/-- The error message of the too-few-items guard in `mergeAndDownload`. -/
def tooFewMsg : String := "Add at least two PDFs to merge."

/-- The merge loop of `mergeAndDownload`: for each item in list order,
parse its bytes and append all its pages to the output; the first
failure aborts the whole loop (the `try` block rethrows to `catch`). -/
def collectPages : List PdfItem → Except String (List Nat)
  | [] => Except.ok []
  | it :: rest =>
    match it.file.content with
    | Except.error e => Except.error e
    | Except.ok ps =>
      match collectPages rest with
      | Except.error e => Except.error e
      | Except.ok acc => Except.ok (ps ++ acc)

/-- The three ways a merge invocation can end: rejected by the
too-few-items guard, aborted by a read/parse/copy failure, or a merged
document. Distinct constructors reflect the distinct code paths. -/
inductive MergeOutcome where
  | tooFew : MergeOutcome
  | failed (msg : String) : MergeOutcome
  | success (pages : List Nat) : MergeOutcome
deriving DecidableEq, Repr

/-- The outcome of `mergeAndDownload` on a given item list:
`items.length < 2` is rejected before any file is read; otherwise the
merge loop runs to completion or to its first failure. -/
def mergeOutcome (items : List PdfItem) : MergeOutcome :=
  if items.length < 2 then MergeOutcome.tooFew
  else
    match collectPages items with
    | Except.error e => MergeOutcome.failed e
    | Except.ok pages => MergeOutcome.success pages

/-- `mergeAndDownload()` as a state transition: the resulting component
state, and the byte stream offered for download (`none` when no download
is triggered). `setError(null)` runs first; the guard and the `catch`
branch set the error; only the success path reaches the download code. -/
def mergeAndDownload (s : AppState) : AppState × Option (List Nat) :=
  match mergeOutcome s.items with
  | MergeOutcome.tooFew => ({ s with error := some tooFewMsg }, none)
  | MergeOutcome.failed e => ({ s with error := some e }, none)
  | MergeOutcome.success pages => ({ s with error := none }, some pages)

/-- The store mutations of the spec: append a picker selection, remove by
id, and a drag-reorder `move(id, targetId)` (a drag that ends over the
target item). -/
inductive StoreOp where
  | append (fileList : Option (List FileData)) : StoreOp
  | remove (id : Nat) : StoreOp
  | move (activeId overId : Nat) : StoreOp
deriving DecidableEq, Repr

/-- One store mutation as App.tsx performs it. -/
def applyOp (s : AppState) : StoreOp → AppState
  | StoreOp.append fl => addFiles s fl
  | StoreOp.remove id => removeItem s id
  | StoreOp.move a o => onDragEnd s a (some o)

/-- A whole session: a sequence of mutations from the initial state. -/
def runOps (ops : List StoreOp) : AppState := ops.foldl applyOp initialState

/-!
Spec-side definitions. Each follows the specification's words so that the
implementation above can be proved to refine it.
-/

/-- The move contract in the words of the spec: repositions the item
identified by `id` to sit where `targetId` currently sits, shifting
intervening items by one slot; no-op if either id is absent or if the two
ids coincide. -/
def specMove (l : List PdfItem) (id targetId : Nat) : List PdfItem :=
  if id = targetId then l
  else
    match findIndex (fun x => x.id == id) l,
          findIndex (fun x => x.id == targetId) l,
          l.find? (fun x => x.id == id) with
    | some i, some j, some x => (l.eraseIdx i).insertIdx j x
    | _, _, _ => l

/-- The append contract in the words of the spec, on the list and the
fresh-id supply: filter the input to the valid files; if nothing is left
the list is unchanged; otherwise each valid file gets a new unique id and
is appended preserving input order. -/
def specAppend (l : List PdfItem) (nextId : Nat) (files : List FileData) :
    List PdfItem × Nat :=
  let valid := files.filter isPdf
  if valid.length = 0 then (l, nextId)
  else (l ++ mkItems nextId valid, nextId + valid.length)

/-- One store mutation in the words of the spec (remove: delete by id if
present, no-op otherwise). -/
def specApplyOp (p : List PdfItem × Nat) : StoreOp → List PdfItem × Nat
  | StoreOp.append none => p
  | StoreOp.append (some fs) => specAppend p.1 p.2 fs
  | StoreOp.remove id => (p.1.filter (fun x => x.id != id), p.2)
  | StoreOp.move a o => (specMove p.1 a o, p.2)

/-- The spec-predicted list after a sequence of mutations from the empty
store. -/
def specRun (ops : List StoreOp) : List PdfItem × Nat :=
  ops.foldl specApplyOp ([], 0)

/-- Rounding to one decimal place, as the spec words it. -/
def roundToTenth (x : ℚ) : ℚ := (jsRound (x * 10) : ℚ) / 10

/-- The spec's derived size total: the sum of the items' byte sizes
expressed in megabytes (1 MB = 1,048,576 bytes), rounded to one decimal
place. -/
def specTotalSizeMb (items : List PdfItem) : ℚ :=
  roundToTenth (((items.map (fun it => it.file.size)).sum : ℚ) / 1048576)

/-- The id invariant of the store: every id in the list was drawn from
the fresh-id supply, and ids are pairwise distinct. -/
def storeInv (s : AppState) : Prop :=
  (∀ x ∈ s.items, x.id < s.nextId) ∧ (s.items.map PdfItem.id).Nodup

/-!
Concrete files and lists used by the witnesses and the counterexample.
-/

/-- A two-page PDF file. -/
def fileA : FileData :=
  { name := "a.pdf", type := "application/pdf", size := 1048576, content := Except.ok [0, 1] }

/-- A one-page PDF file. -/
def fileB : FileData :=
  { name := "b.pdf", type := "application/pdf", size := 524288, content := Except.ok [2] }

/-- A file whose bytes fail to parse as a PDF document. -/
def fileBad : FileData :=
  { name := "broken.pdf", type := "application/pdf", size := 7, content := Except.error "Failed to parse PDF document" }

/-- A file that passes neither the MIME-type nor the extension filter. -/
def fileTxt : FileData :=
  { name := "notes.txt", type := "text/plain", size := 3, content := Except.error "not a pdf" }

/-- A two-item list [A, B]. -/
def listAB : List PdfItem :=
  [{ id := 0, file := fileA }, { id := 1, file := fileB }]

/-- A two-item list whose second item fails to parse. -/
def listABad : List PdfItem :=
  [{ id := 0, file := fileA }, { id := 1, file := fileBad }]

/-!
Helper lemmas about `findIndex`, `eraseIdx`, `insertIdx` and `arrayMove`.
-/

theorem findIndex_eq_none {p : α → Bool} :
    ∀ (l : List α), (∀ x ∈ l, p x = false) → findIndex p l = none
  | [], _ => rfl
  | a :: l, h => by
    have ha : p a = false := h a (List.mem_cons_self a l)
    simp [findIndex, ha, findIndex_eq_none l (fun x hx => h x (List.mem_cons_of_mem a hx))]

theorem findIndex_spec {p : α → Bool} :
    ∀ (l : List α) (i : Nat), findIndex p l = some i →
      ∃ x, l[i]? = some x ∧ p x = true ∧ l.find? p = some x
  | [], i, h => by simp [findIndex] at h
  | a :: l, i, h => by
    by_cases ha : p a
    · simp [findIndex, ha] at h
      subst h
      exact ⟨a, by simp, ha, by simp [List.find?_cons, ha]⟩
    · simp [findIndex, ha] at h
      obtain ⟨j, hj, rfl⟩ := h
      obtain ⟨x, hx, hpx, hf⟩ := findIndex_spec l j hj
      exact ⟨x, by simpa using hx, hpx, by simp [List.find?_cons, ha, hf]⟩

theorem findIndex_lt_length {p : α → Bool} {l : List α} {i : Nat}
    (h : findIndex p l = some i) : i < l.length := by
  obtain ⟨x, hx, -, -⟩ := findIndex_spec l i h
  exact (List.getElem?_eq_some.mp hx).1

theorem findIndex_of_mem {p : α → Bool} :
    ∀ (l : List α), (∃ x ∈ l, p x = true) → ∃ i, findIndex p l = some i
  | [], h => by simp at h
  | a :: l, h => by
    by_cases ha : p a
    · exact ⟨0, by simp [findIndex, ha]⟩
    · obtain ⟨x, hx, hpx⟩ := h
      rcases List.mem_cons.mp hx with rfl | hx2
      · exact absurd hpx (by simp [ha])
      · obtain ⟨i, hi⟩ := findIndex_of_mem l ⟨x, hx2, hpx⟩
        exact ⟨i + 1, by simp [findIndex, ha, hi]⟩

theorem cons_eraseIdx_perm :
    ∀ (l : List α) (i : Nat) (x : α), l[i]? = some x → (x :: l.eraseIdx i).Perm l
  | [], i, x, h => by simp at h
  | a :: l, 0, x, h => by
    have : a = x := by simpa using h
    subst this
    simp [List.eraseIdx]
  | a :: l, i + 1, x, h => by
    have hrec := cons_eraseIdx_perm l i x (by simpa using h)
    have h1 : List.Perm (x :: a :: l.eraseIdx i) (a :: x :: l.eraseIdx i) :=
      List.Perm.swap a x _
    have h2 : List.Perm (a :: x :: l.eraseIdx i) (a :: l) := hrec.cons a
    simpa [List.eraseIdx] using h1.trans h2

theorem insertIdx_perm (x : α) :
    ∀ (n : Nat) (l : List α), n ≤ l.length → (l.insertIdx n x).Perm (x :: l)
  | 0, l, _ => by rw [List.insertIdx_zero]
  | n + 1, [], h => by simp at h
  | n + 1, a :: l, h => by
    rw [List.insertIdx_succ_cons]
    exact ((insertIdx_perm x n l (by simpa using h)).cons a).trans (List.Perm.swap x a l)

theorem filter_eraseIdx_false {p : α → Bool} :
    ∀ (l : List α) (i : Nat) (x : α), l[i]? = some x → p x = false →
      (l.eraseIdx i).filter p = l.filter p
  | [], i, x, h, _ => by simp at h
  | a :: l, 0, x, h, hp => by
    have : a = x := by simpa using h
    subst this
    simp [List.eraseIdx, List.filter_cons, hp]
  | a :: l, i + 1, x, h, hp => by
    simp only [List.eraseIdx, List.filter_cons]
    rw [filter_eraseIdx_false l i x (by simpa using h) hp]

theorem filter_insertIdx_false {p : α → Bool} :
    ∀ (n : Nat) (l : List α) (x : α), n ≤ l.length → p x = false →
      (l.insertIdx n x).filter p = l.filter p
  | 0, l, x, _, hp => by rw [List.insertIdx_zero, List.filter_cons]; simp [hp]
  | n + 1, [], x, h, _ => by simp at h
  | n + 1, a :: l, x, h, hp => by
    rw [List.insertIdx_succ_cons, List.filter_cons, List.filter_cons,
      filter_insertIdx_false n l x (by simpa using h) hp]

theorem findIndex_insertIdx {p : α → Bool} :
    ∀ (n : Nat) (l : List α) (x : α), n ≤ l.length → p x = true →
      (∀ y ∈ l, p y = false) → findIndex p (l.insertIdx n x) = some n
  | 0, l, x, _, hp, _ => by rw [List.insertIdx_zero]; simp [findIndex, hp]
  | n + 1, [], x, h, _, _ => by simp at h
  | n + 1, a :: l, x, h, hp, hall => by
    rw [List.insertIdx_succ_cons]
    have ha : p a = false := hall a (List.mem_cons_self a l)
    simp [findIndex, ha,
      findIndex_insertIdx n l x (by simpa using h) hp
        (fun y hy => hall y (List.mem_cons_of_mem a hy))]

theorem arrayMove_perm (l : List α) (i j : Nat) (hj : j < l.length) :
    (arrayMove l i j).Perm l := by
  unfold arrayMove
  cases h : l[i]? with
  | none => exact List.Perm.refl l
  | some x =>
    have hi : i < l.length := (List.getElem?_eq_some.mp h).1
    have h1 : j ≤ (l.eraseIdx i).length := by
      have := List.length_eraseIdx_add_one hi
      omega
    exact (insertIdx_perm x j _ h1).trans (cons_eraseIdx_perm l i x h)

theorem moveItems_perm (l : List PdfItem) (aid oid : Nat) :
    (moveItems l aid oid).Perm l := by
  unfold moveItems
  by_cases he : aid = oid
  · simp [he]
  · simp only [he, if_false]
    cases ha : findIndex (fun x => x.id == aid) l with
    | none => exact List.Perm.refl l
    | some i =>
      cases ho : findIndex (fun x => x.id == oid) l with
      | none => exact List.Perm.refl l
      | some j => exact arrayMove_perm l i j (findIndex_lt_length ho)

/-!
Facts about the fresh-id supply and the shape of `addFiles`.
-/

theorem mkItems_map_file :
    ∀ (n : Nat) (fs : List FileData), (mkItems n fs).map PdfItem.file = fs
  | _, [] => rfl
  | n, f :: fs => by simp [mkItems, mkItems_map_file (n + 1) fs]

theorem mkItems_length :
    ∀ (n : Nat) (fs : List FileData), (mkItems n fs).length = fs.length
  | _, [] => rfl
  | n, f :: fs => by simp [mkItems, mkItems_length (n + 1) fs]

theorem mkItems_id_bounds :
    ∀ (n : Nat) (fs : List FileData), ∀ x ∈ mkItems n fs,
      n ≤ x.id ∧ x.id < n + fs.length
  | n, [], x, hx => by simp [mkItems] at hx
  | n, f :: fs, x, hx => by
    rcases List.mem_cons.mp hx with rfl | hx2
    · simp
    · obtain ⟨h1, h2⟩ := mkItems_id_bounds (n + 1) fs x hx2
      refine ⟨by omega, ?_⟩
      simp only [List.length_cons]
      omega

theorem mkItems_id_nodup :
    ∀ (n : Nat) (fs : List FileData), ((mkItems n fs).map PdfItem.id).Nodup
  | _, [] => by simp [mkItems]
  | n, f :: fs => by
    have hrest := mkItems_id_nodup (n + 1) fs
    simp only [mkItems, List.map_cons, List.nodup_cons]
    refine ⟨fun hmem => ?_, hrest⟩
    obtain ⟨x, hx, hid⟩ := List.mem_map.mp hmem
    have := (mkItems_id_bounds (n + 1) fs x hx).1
    omega

theorem addFiles_none (s : AppState) : addFiles s none = { s with error := none } := rfl

theorem addFiles_nil (s : AppState) : addFiles s (some []) = { s with error := none } := rfl

theorem addFiles_noMatch (s : AppState) (fs : List FileData)
    (h0 : fs.length ≠ 0) (hf : (fs.filter isPdf).length = 0) :
    addFiles s (some fs) = { s with error := some noPdfMsg } := by
  unfold addFiles
  simp [h0, hf]

theorem addFiles_someMatch (s : AppState) (fs : List FileData)
    (h0 : fs.length ≠ 0) (hf : (fs.filter isPdf).length ≠ 0) :
    addFiles s (some fs) =
      { items := s.items ++ mkItems s.nextId (fs.filter isPdf),
        error := none,
        nextId := s.nextId + (fs.filter isPdf).length } := by
  unfold addFiles
  simp [h0, hf]

/-!
The id invariant survives every store mutation.
-/

theorem storeInv_initial : storeInv initialState :=
  ⟨fun x hx => absurd hx (List.not_mem_nil x), List.nodup_nil⟩

theorem storeInv_addFiles (s : AppState) (fl : Option (List FileData))
    (h : storeInv s) : storeInv (addFiles s fl) := by
  obtain ⟨hlt, hnd⟩ := h
  cases fl with
  | none => exact ⟨hlt, hnd⟩
  | some fs =>
    by_cases h0 : fs.length = 0
    · rw [List.length_eq_zero.mp h0, addFiles_nil]
      exact ⟨hlt, hnd⟩
    · by_cases hf : (fs.filter isPdf).length = 0
      · rw [addFiles_noMatch s fs h0 hf]
        exact ⟨hlt, hnd⟩
      · rw [addFiles_someMatch s fs h0 hf]
        constructor
        · intro x hx
          rcases List.mem_append.mp hx with hx1 | hx2
          · have := hlt x hx1
            simp only []
            omega
          · have := (mkItems_id_bounds s.nextId (fs.filter isPdf) x hx2).2
            simp only []
            omega
        · simp only [List.map_append]
          refine List.Nodup.append hnd (mkItems_id_nodup _ _) ?_
          intro a ha1 ha2
          obtain ⟨x, hx, rfl⟩ := List.mem_map.mp ha1
          obtain ⟨y, hy, hxy⟩ := List.mem_map.mp ha2
          have hxlt := hlt x hx
          have hyge := (mkItems_id_bounds s.nextId (fs.filter isPdf) y hy).1
          omega

theorem storeInv_removeItem (s : AppState) (id : Nat)
    (h : storeInv s) : storeInv (removeItem s id) := by
  obtain ⟨hlt, hnd⟩ := h
  constructor
  · intro x hx
    exact hlt x (List.mem_of_mem_filter hx)
  · exact List.Nodup.sublist (List.Sublist.map PdfItem.id (List.filter_sublist _)) hnd

theorem storeInv_onDragEnd (s : AppState) (activeId : Nat) (over : Option Nat)
    (h : storeInv s) : storeInv (onDragEnd s activeId over) := by
  obtain ⟨hlt, hnd⟩ := h
  cases over with
  | none => exact ⟨hlt, hnd⟩
  | some overId =>
    have hperm := moveItems_perm s.items activeId overId
    constructor
    · intro x hx
      exact hlt x (hperm.mem_iff.mp hx)
    · exact (List.Perm.nodup_iff (hperm.map PdfItem.id)).mpr hnd

theorem storeInv_applyOp (s : AppState) (op : StoreOp)
    (h : storeInv s) : storeInv (applyOp s op) := by
  cases op with
  | append fl => exact storeInv_addFiles s fl h
  | remove id => exact storeInv_removeItem s id h
  | move a o => exact storeInv_onDragEnd s a (some o) h

theorem storeInv_foldl :
    ∀ (ops : List StoreOp) (s : AppState), storeInv s →
      storeInv (ops.foldl applyOp s)
  | [], _, h => h
  | op :: ops, s, h => storeInv_foldl ops (applyOp s op) (storeInv_applyOp s op h)

/-!
The implementation steps coincide with the spec-side steps.
-/

theorem moveItems_eq_specMove (l : List PdfItem) (aid oid : Nat) :
    moveItems l aid oid = specMove l aid oid := by
  unfold moveItems specMove
  by_cases he : aid = oid
  · simp [he]
  · rw [if_neg he, if_neg he]
    cases ha : findIndex (fun x => x.id == aid) l with
    | none =>
      cases hf : l.find? (fun x => x.id == aid) <;>
        cases ho : findIndex (fun x => x.id == oid) l <;> rfl
    | some i =>
      cases ho : findIndex (fun x => x.id == oid) l with
      | none =>
        cases hf : l.find? (fun x => x.id == aid) <;> rfl
      | some j =>
        obtain ⟨x, hx, hpx, hf⟩ := findIndex_spec l i ha
        rw [hf]
        show arrayMove l i j = (l.eraseIdx i).insertIdx j x
        unfold arrayMove
        rw [hx]

theorem applyOp_refines (s : AppState) (op : StoreOp) :
    specApplyOp (s.items, s.nextId) op = ((applyOp s op).items, (applyOp s op).nextId) := by
  cases op with
  | append fl =>
    cases fl with
    | none => rfl
    | some fs =>
      show specAppend s.items s.nextId fs = _
      unfold specAppend
      by_cases h0 : fs.length = 0
      · rw [List.length_eq_zero.mp h0]
        show (s.items, s.nextId) = _
        rw [show applyOp s (StoreOp.append (some [])) = addFiles s (some []) from rfl,
          addFiles_nil]
      · by_cases hf : (fs.filter isPdf).length = 0
        · rw [if_pos hf]
          rw [show applyOp s (StoreOp.append (some fs)) = addFiles s (some fs) from rfl,
            addFiles_noMatch s fs h0 hf]
        · rw [if_neg hf]
          rw [show applyOp s (StoreOp.append (some fs)) = addFiles s (some fs) from rfl,
            addFiles_someMatch s fs h0 hf]
  | remove id => rfl
  | move a o =>
    show (specMove s.items a o, s.nextId) = _
    rw [← moveItems_eq_specMove]
    rfl

theorem foldl_refines :
    ∀ (ops : List StoreOp) (s : AppState),
      ops.foldl specApplyOp (s.items, s.nextId) =
        ((ops.foldl applyOp s).items, (ops.foldl applyOp s).nextId)
  | [], _ => rfl
  | op :: ops, s => by
    rw [List.foldl_cons, List.foldl_cons, applyOp_refines s op,
      foldl_refines ops (applyOp s op)]

theorem specRun_eq_runOps (ops : List StoreOp) :
    specRun ops = ((runOps ops).items, (runOps ops).nextId) :=
  foldl_refines ops initialState

/-!
The merge loop: all-parses-succeed and some-parse-fails cases.
-/

theorem collectPages_ok :
    ∀ (items : List PdfItem) (pss : List (List Nat)),
      items.map (fun it => it.file.content) = pss.map Except.ok →
      collectPages items = Except.ok pss.flatten
  | [], pss, h => by
    cases pss with
    | nil => rfl
    | cons _ _ => simp at h
  | it :: rest, pss, h => by
    cases pss with
    | nil => simp at h
    | cons ps pss2 =>
      simp only [List.map_cons, List.cons.injEq] at h
      obtain ⟨h1, h2⟩ := h
      unfold collectPages
      rw [h1, collectPages_ok rest pss2 h2]
      simp

theorem collectPages_error :
    ∀ (items : List PdfItem),
      (∃ it ∈ items, ∃ e, it.file.content = Except.error e) →
      ∃ m, collectPages items = Except.error m ∧
        ∃ it ∈ items, it.file.content = Except.error m
  | [], h => by simp at h
  | it :: rest, h => by
    unfold collectPages
    cases hc : it.file.content with
    | error e => exact ⟨e, rfl, it, List.mem_cons_self it rest, hc⟩
    | ok ps =>
      have hrest : ∃ it2 ∈ rest, ∃ e, it2.file.content = Except.error e := by
        obtain ⟨it2, hmem, e, he⟩ := h
        rcases List.mem_cons.mp hmem with rfl | h2
        · rw [hc] at he; cases he
        · exact ⟨it2, h2, e, he⟩
      obtain ⟨m, hm, it2, hmem2, he2⟩ := collectPages_error rest hrest
      rw [hm]
      exact ⟨m, rfl, it2, List.mem_cons_of_mem it hmem2, he2⟩

/-!
Arithmetic of the displayed size total.
-/

theorem foldl_size_eq_sum :
    ∀ (l : List PdfItem) (n : Nat),
      l.foldl (fun sum it => sum + it.file.size) n =
        n + (l.map (fun it => it.file.size)).sum
  | [], n => by simp
  | it :: l, n => by
    rw [List.foldl_cons, foldl_size_eq_sum l (n + it.file.size)]
    simp [List.sum_cons]
    omega

theorem jsRound_close (y : ℚ) : |(jsRound y : ℚ) - y| ≤ 1 / 2 := by
  unfold jsRound
  have h1 : (⌊y + 1 / 2⌋ : ℚ) ≤ y + 1 / 2 := Int.floor_le _
  have h2 : y + 1 / 2 < (⌊y + 1 / 2⌋ : ℚ) + 1 := Int.lt_floor_add_one _
  rw [abs_le]
  constructor <;> linarith

theorem totalSizeMb_eq_spec (items : List PdfItem) :
    totalSizeMb items = specTotalSizeMb items := by
  unfold totalSizeMb specTotalSizeMb roundToTenth
  rw [foldl_size_eq_sum items 0]
  norm_num
  rw [show (Nat.cast ∘ fun (it : PdfItem) => it.file.size) = (fun (it : PdfItem) => (it.file.size : ℚ)) from rfl]

/-!
The claims.
-/

/-- Claim C1: for an ordered list of at least two items all of which
parse, merge produces one output whose pages are exactly the
concatenation of each item's pages, ordered first by the item's position
and then by the page's order inside its source document, and that output
is offered for download. -/
theorem merge_pages_in_order (s : AppState) (pss : List (List Nat))
    (h2 : 2 ≤ s.items.length)
    (hok : s.items.map (fun it => it.file.content) = pss.map Except.ok) :
    mergeOutcome s.items = MergeOutcome.success pss.flatten ∧
    mergeAndDownload s = ({ s with error := none }, some pss.flatten) := by
  have hc := collectPages_ok s.items pss hok
  have hm : mergeOutcome s.items = MergeOutcome.success pss.flatten := by
    unfold mergeOutcome
    rw [if_neg (by omega), hc]
  exact ⟨hm, by unfold mergeAndDownload; rw [hm]⟩

/-- Witness for C1: the spec's example — A with two pages and B with one
page merge to the three pages [A.p1, A.p2, B.p1]. -/
theorem merge_pages_in_order_witness :
    mergeOutcome listAB = MergeOutcome.success [0, 1, 2] := by
  have h := merge_pages_in_order { items := listAB, error := none, nextId := 2 }
    [[0, 1], [2]] (by decide) (by decide)
  simpa using h.1

/-- Claim C2: when parsing of any single item fails, the whole merge
aborts: the outcome is a failure carrying the description of a failing
item, nothing is offered for download, and the item list in the resulting
state is exactly the one before the invocation. -/
theorem merge_failure_aborts (s : AppState) (bad : PdfItem) (e : String)
    (h2 : 2 ≤ s.items.length) (hmem : bad ∈ s.items)
    (herr : bad.file.content = Except.error e) :
    ∃ m, (∃ it ∈ s.items, it.file.content = Except.error m) ∧
      mergeOutcome s.items = MergeOutcome.failed m ∧
      mergeAndDownload s = ({ s with error := some m }, none) := by
  obtain ⟨m, hm, it2, hmem2, he2⟩ := collectPages_error s.items ⟨bad, hmem, e, herr⟩
  have hm2 : mergeOutcome s.items = MergeOutcome.failed m := by
    unfold mergeOutcome
    rw [if_neg (by omega), hm]
  exact ⟨m, ⟨it2, hmem2, he2⟩, hm2, by unfold mergeAndDownload; rw [hm2]⟩

/-- Witness for C2: [A, broken] aborts with the broken file's parse
message, no download, list untouched. -/
theorem merge_failure_aborts_witness :
    ∃ m, (∃ it ∈ listABad, it.file.content = Except.error m) ∧
      mergeOutcome listABad = MergeOutcome.failed m ∧
      mergeAndDownload { items := listABad, error := none, nextId := 2 } =
        ({ items := listABad, error := some m, nextId := 2 }, none) :=
  merge_failure_aborts { items := listABad, error := none, nextId := 2 }
    { id := 1, file := fileBad } "Failed to parse PDF document"
    (by decide) (by decide) (by decide)

/-- Claim C3: a merge invoked on fewer than two items is rejected with
the distinct too-few-items outcome, the list is unchanged, nothing is
downloaded, and the outcome does not depend on any file's bytes
(replacing every file arbitrarily gives the same rejection), so no file
is read. -/
theorem merge_too_few (s : AppState) (h : s.items.length < 2) :
    mergeOutcome s.items = MergeOutcome.tooFew ∧
    mergeAndDownload s = ({ s with error := some tooFewMsg }, none) ∧
    (∀ g : FileData → FileData,
      mergeOutcome (s.items.map (fun it => { it with file := g it.file })) =
        MergeOutcome.tooFew) ∧
    (∀ msg, MergeOutcome.tooFew ≠ MergeOutcome.failed msg) := by
  have hm : mergeOutcome s.items = MergeOutcome.tooFew := by
    unfold mergeOutcome; rw [if_pos h]
  refine ⟨hm, by unfold mergeAndDownload; rw [hm], ?_, fun msg h2 => by cases h2⟩
  intro g
  unfold mergeOutcome
  rw [if_pos (by simpa using h)]

/-- Witness for C3: the empty list is rejected with the too-few outcome. -/
theorem merge_too_few_witness :
    mergeOutcome initialState.items = MergeOutcome.tooFew ∧
    mergeAndDownload initialState =
      ({ initialState with error := some tooFewMsg }, none) ∧
    (∀ g : FileData → FileData,
      mergeOutcome (initialState.items.map (fun it => { it with file := g it.file })) =
        MergeOutcome.tooFew) ∧
    (∀ msg, MergeOutcome.tooFew ≠ MergeOutcome.failed msg) :=
  merge_too_few initialState (by decide)

/-- Claim C4: every finite sequence of append/remove/move operations from
the empty list keeps ids pairwise distinct (quantifying over all
sequences covers every intermediate state) and produces exactly the list
predicted by applying each operation's spec contract in turn. -/
theorem store_ops_sound (ops : List StoreOp) :
    ((runOps ops).items.map PdfItem.id).Nodup ∧
    (runOps ops).items = (specRun ops).1 := by
  refine ⟨(storeInv_foldl ops initialState storeInv_initial).2, ?_⟩
  rw [specRun_eq_runOps]

/-- Claim C5: on a list with distinct ids, move(id, targetId) repositions
the item with id to the position targetId occupied (its index becomes the
found index of targetId), leaves the relative order of all other items
unchanged, loses and duplicates nothing, and is a no-op — with no error —
when the two ids coincide or either is absent. -/
theorem move_contract (l : List PdfItem) (aid oid : Nat)
    (hnd : (l.map PdfItem.id).Nodup) :
    (aid = oid → moveItems l aid oid = l) ∧
    ((∀ x ∈ l, x.id ≠ aid) ∨ (∀ x ∈ l, x.id ≠ oid) → moveItems l aid oid = l) ∧
    (moveItems l aid oid).Perm l ∧
    (∀ i j, aid ≠ oid →
      findIndex (fun x => x.id == aid) l = some i →
      findIndex (fun x => x.id == oid) l = some j →
      findIndex (fun x => x.id == aid) (moveItems l aid oid) = some j ∧
      (moveItems l aid oid).filter (fun x => x.id != aid) =
        l.filter (fun x => x.id != aid)) := by
  refine ⟨?_, ?_, moveItems_perm l aid oid, ?_⟩
  · intro he
    unfold moveItems
    simp [he]
  · intro habs
    unfold moveItems
    by_cases he : aid = oid
    · simp [he]
    · rw [if_neg he]
      rcases habs with h | h
      · rw [findIndex_eq_none l (fun x hx => by simpa using h x hx)]
      · rw [show findIndex (fun x => x.id == oid) l = none from
          findIndex_eq_none l (fun x hx => by simpa using h x hx)]
        cases findIndex (fun x => x.id == aid) l <;> rfl
  · intro i j hne hi hj
    obtain ⟨x, hx, hpx, -⟩ := findIndex_spec l i hi
    have hxid : x.id = aid := by simpa using hpx
    have hmove : moveItems l aid oid = (l.eraseIdx i).insertIdx j x := by
      unfold moveItems
      rw [if_neg hne, hi, hj]
      show arrayMove l i j = _
      unfold arrayMove
      rw [hx]
    have hjlt : j < l.length := findIndex_lt_length hj
    have hilt : i < l.length := (List.getElem?_eq_some.mp hx).1
    have hjle : j ≤ (l.eraseIdx i).length := by
      have := List.length_eraseIdx_add_one hilt
      omega
    have hperm : (x :: l.eraseIdx i).Perm l := cons_eraseIdx_perm l i x hx
    have hnodup2 : (x.id :: (l.eraseIdx i).map PdfItem.id).Nodup :=
      (List.Perm.nodup_iff (hperm.map PdfItem.id)).mpr hnd
    have hnotin : x.id ∉ (l.eraseIdx i).map PdfItem.id := (List.nodup_cons.mp hnodup2).1
    have hall : ∀ y ∈ l.eraseIdx i, (y.id == aid) = false := by
      intro y hy
      have hne2 : y.id ≠ aid := fun hyid =>
        hnotin (List.mem_map.mpr ⟨y, hy, by rw [hyid, hxid]⟩)
      simp [hne2]
    constructor
    · rw [hmove]
      exact findIndex_insertIdx j (l.eraseIdx i) x hjle hpx hall
    · rw [hmove]
      have hxfalse : (x.id != aid) = false := by simp [hxid]
      rw [filter_insertIdx_false j (l.eraseIdx i) x hjle hxfalse,
        filter_eraseIdx_false l i x hx hxfalse]

/-- Witness for C5: moving A onto B in [A, B] lands A at B's former
index 1 and keeps the other item's relative order. -/
theorem move_contract_witness :
    findIndex (fun x => x.id == 0) (moveItems listAB 0 1) = some 1 ∧
    (moveItems listAB 0 1).filter (fun x => x.id != 0) =
      listAB.filter (fun x => x.id != 0) :=
  (move_contract listAB 0 1 (by decide)).2.2.2 0 1 (by decide) (by decide) (by decide)

/-- Counterexample to claim C6 as stated: on the two-item list [A, B]
(ids 0 and 1), move(0, 1) once yields [B, A] but applying it a second
time yields [A, B] again, so the final orders differ. -/
theorem move_not_idempotent :
    moveItems (moveItems listAB 0 1) 0 1 ≠ moveItems listAB 0 1 := by decide

/-- Claim C6 (amended): applying move(id, targetId) twice yields a
permutation (the same items) of applying it once, and yields exactly the
same list whenever the move is a no-op (equal ids or an absent id); when
the ids are distinct and both present the second application moves the
item again, so idempotence in final order does not hold in general. -/
theorem move_twice_characterization (l : List PdfItem) (aid oid : Nat) :
    (moveItems (moveItems l aid oid) aid oid).Perm (moveItems l aid oid) ∧
    ((aid = oid ∨ (∀ x ∈ l, x.id ≠ aid) ∨ (∀ x ∈ l, x.id ≠ oid)) →
      moveItems (moveItems l aid oid) aid oid = moveItems l aid oid) := by
  refine ⟨moveItems_perm _ aid oid, ?_⟩
  intro h
  have hl : moveItems l aid oid = l := by
    unfold moveItems
    by_cases he : aid = oid
    · simp [he]
    · rw [if_neg he]
      rcases h with he2 | habs | habs
      · exact absurd he2 he
      · rw [findIndex_eq_none l (fun x hx => by simpa using habs x hx)]
      · rw [show findIndex (fun x => x.id == oid) l = none from
          findIndex_eq_none l (fun x hx => by simpa using habs x hx)]
        cases findIndex (fun x => x.id == aid) l <;> rfl
  rw [hl]
  exact hl

/-- Witness for C6 (amended): a no-op move (equal ids) applied twice
equals it applied once. -/
theorem move_twice_characterization_witness :
    moveItems (moveItems listAB 0 0) 0 0 = moveItems listAB 0 0 :=
  (move_twice_characterization listAB 0 0).2 (Or.inl rfl)

/-- Claim C7: appending a non-empty batch with at least one PDF keeps
exactly the matching files in their relative input order (the new tail
maps back to the filtered batch), appends them after all existing items
(which are unchanged), and gives each a fresh id, so all ids stay
pairwise distinct. -/
theorem addFiles_appends_matching (s : AppState) (fs : List FileData)
    (h0 : fs.length ≠ 0) (hf : (fs.filter isPdf).length ≠ 0)
    (hinv : storeInv s) :
    addFiles s (some fs) =
      { items := s.items ++ mkItems s.nextId (fs.filter isPdf),
        error := none,
        nextId := s.nextId + (fs.filter isPdf).length } ∧
    (mkItems s.nextId (fs.filter isPdf)).map PdfItem.file = fs.filter isPdf ∧
    ((addFiles s (some fs)).items.map PdfItem.id).Nodup :=
  ⟨addFiles_someMatch s fs h0 hf, mkItems_map_file _ _,
    (storeInv_addFiles s (some fs) hinv).2⟩

/-- Witness for C7: a mixed batch [A, notes.txt, B] on the empty store
appends exactly [A, B] with fresh ids 0 and 1. -/
theorem addFiles_appends_matching_witness :
    addFiles initialState (some [fileA, fileTxt, fileB]) =
      { items := [{ id := 0, file := fileA }, { id := 1, file := fileB }],
        error := none, nextId := 2 } := by
  rw [(addFiles_appends_matching initialState [fileA, fileTxt, fileB]
    (by decide) (by decide) storeInv_initial).1]
  decide

/-- Claim C8: appending a non-empty batch in which nothing passes the PDF
filter leaves the item list exactly unchanged and signals the
no-valid-files error. -/
theorem addFiles_all_filtered (s : AppState) (fs : List FileData)
    (h0 : fs.length ≠ 0) (hf : (fs.filter isPdf).length = 0) :
    addFiles s (some fs) = { s with error := some noPdfMsg } :=
  addFiles_noMatch s fs h0 hf

/-- Witness for C8: a batch holding only notes.txt is rejected with the
no-valid-files error and the store untouched. -/
theorem addFiles_all_filtered_witness :
    addFiles initialState (some [fileTxt]) =
      { initialState with error := some noPdfMsg } :=
  addFiles_all_filtered initialState [fileTxt] (by decide) (by decide)

/-- Claim C9: the displayed size total is a pure function of the current
item list that equals the sum of the byte sizes divided by 1,048,576 and
rounded to one decimal place: it coincides with the spec-side formula, is
an integer number of tenths, and sits within 1/20 MB of the exact
megabyte total. -/
theorem totalSize_display_correct (items : List PdfItem) :
    totalSizeMb items = specTotalSizeMb items ∧
    (∃ k : ℤ, totalSizeMb items = (k : ℚ) / 10) ∧
    |totalSizeMb items -
      ((items.map (fun it => it.file.size)).sum : ℚ) / 1048576| ≤ 1 / 20 := by
  have hspec := totalSizeMb_eq_spec items
  refine ⟨hspec,
    ⟨jsRound ((((items.map (fun it => it.file.size)).sum : ℚ) / 1048576) * 10),
      by rw [hspec]; rfl⟩, ?_⟩
  rw [hspec]
  have hc := jsRound_close ((((items.map (fun it => it.file.size)).sum : ℚ) / 1048576) * 10)
  show |(jsRound ((((items.map (fun it => it.file.size)).sum : ℚ) / 1048576) * 10) : ℚ) / 10 -
    ((items.map (fun it => it.file.size)).sum : ℚ) / 1048576| ≤ 1 / 20
  rw [show (jsRound ((((items.map (fun it => it.file.size)).sum : ℚ) / 1048576) * 10) : ℚ) / 10 -
      ((items.map (fun it => it.file.size)).sum : ℚ) / 1048576 =
      ((jsRound ((((items.map (fun it => it.file.size)).sum : ℚ) / 1048576) * 10) : ℚ) -
        (((items.map (fun it => it.file.size)).sum : ℚ) / 1048576) * 10) / 10 by ring,
    abs_div, show |(10 : ℚ)| = 10 by norm_num]
  linarith

/-- Claim C10: an append invocation whose selection is null or empty
returns with the item list unchanged and no error signalled (the error
banner is cleared, not set). -/
theorem addFiles_empty_selection (s : AppState) (fl : Option (List FileData))
    (h : fl = none ∨ fl = some []) :
    addFiles s fl = { s with error := none } := by
  rcases h with rfl | rfl
  · exact addFiles_none s
  · exact addFiles_nil s

/-- Witness for C10: a null selection on the empty store changes
nothing and raises nothing. -/
theorem addFiles_empty_selection_witness :
    addFiles initialState none = { initialState with error := none } :=
  addFiles_empty_selection initialState none (Or.inl rfl)
